import Mathlib

/-!
Shallow embedding of `src/regex.py`: a regex-to-FSM compiler (`RegexFSM.__init__`
together with `RegexFSM.__init_next_state`) and a BFS matcher (`RegexFSM.check_string`).

The Python object graph is cyclic (`StarState`/`PlusState` append themselves to their
own `next_states`), so nodes live in an arena (`List Node`) and refer to each other by
index.  A node's `next_states` attribute is modelled as `Option (List Nat)`:
`TerminationState.__init__` never sets the attribute, which is modelled as `none`;
reading `next_states` of such a node is Python's `AttributeError`.
-/

/-- Decidable equality for `Except`, so that concrete compiler and matcher results
can be settled by `decide`. -/
instance exceptDecEq {ε α : Type} [DecidableEq ε] [DecidableEq α] :
    DecidableEq (Except ε α) := fun x y =>
  match x, y with
  | Except.ok a, Except.ok b =>
    if h : a = b then Decidable.isTrue (by rw [h])
    else Decidable.isFalse (by intro hc; cases hc; exact h rfl)
  | Except.error e, Except.error f =>
    if h : e = f then Decidable.isTrue (by rw [h])
    else Decidable.isFalse (by intro hc; cases hc; exact h rfl)
  | Except.ok _, Except.error _ => Decidable.isFalse (by intro hc; cases hc)
  | Except.error _, Except.ok _ => Decidable.isFalse (by intro hc; cases hc)

namespace DiscreteRegex

/-- The closed set of state kinds of `regex.py`: `StartState`, `TerminationState`,
`DotState`, `AsciiState(symbol)`, `StarState(checking_state)`, `PlusState(checking_state)`.
`star`/`plus` carry the arena index of their wrapped `checking_state`. -/
inductive StateKind where
  | start : StateKind
  | termination : StateKind
  | dot : StateKind
  | ascii (symbol : Char) : StateKind
  | star (checking : Nat) : StateKind
  | plus (checking : Nat) : StateKind
deriving DecidableEq

/-- One state object: its kind and its `next_states` attribute.  `none` means the
attribute was never set (only `TerminationState` is constructed that way). -/
structure Node where
  kind : StateKind
  next_states : Option (List Nat)
deriving DecidableEq

/-- Reading past the arena or a missing attribute behaves like an absent object;
the default is only ever used out of range, which compiled graphs never do. -/
instance : Inhabited Node := ⟨⟨StateKind.termination, none⟩⟩

def startNode : Node := ⟨StateKind.start, some []⟩

def terminationNode : Node := ⟨StateKind.termination, none⟩

def dotNode : Node := ⟨StateKind.dot, some []⟩

def asciiNode (c : Char) : Node := ⟨StateKind.ascii c, some []⟩

/-- `StarState.__init__` sets `next_states = []` and then appends `self`. -/
def starNode (checking selfId : Nat) : Node := ⟨StateKind.star checking, some [selfId]⟩

/-- `PlusState.__init__` sets `next_states = []` and then appends `self`. -/
def plusNode (checking selfId : Nat) : Node := ⟨StateKind.plus checking, some [selfId]⟩

/-- The node stored at index `i` of the arena. -/
def nodeAt (arena : List Node) (i : Nat) : Node := (arena[i]?).getD default

/-- The kind of the node at index `i`. -/
def kindAt (arena : List Node) (i : Nat) : StateKind := (nodeAt arena i).kind

/-- The `next_states` list of the node at index `i`, reading a missing attribute as `[]`
(for stating graph-shape properties only; the matcher distinguishes the `none` case). -/
def nextListD (arena : List Node) (i : Nat) : List Nat :=
  (nodeAt arena i).next_states.getD []

/-- Errors `RegexFSM.__init__` / `__init_next_state` can raise.  The two `ValueError`s
are the quantifier-placement errors; `unsupportedCharacter` is the `AttributeError`
for a non-ASCII character.  `noneFallthrough` marks the implicit `return None` at the
end of `__init_next_state`'s quantifier branch (unreachable on any actual pattern). -/
inductive RegexError where
  | doubleQuantifier : RegexError
  | quantifierAtStart : RegexError
  | unsupportedCharacter : RegexError
  | noneFallthrough : RegexError
deriving DecidableEq

/-- Predicate from the spec's error taxonomy: both `ValueError`s of
`__init_next_state` are quantifier-placement errors. -/
def isQuantifierPlacementError : RegexError → Bool
  | RegexError.doubleQuantifier => true
  | RegexError.quantifierAtStart => true
  | _ => false

/-- `RegexFSM.__init_next_state`: `.` builds a `DotState`; `*`/`+` raise a
`ValueError` when the previous state is a quantifier state or the start state
(otherwise Python falls through returning `None`, modelled as `noneFallthrough`);
any other ASCII character builds an `AsciiState`; anything else raises
`AttributeError`.  Returns the grown arena and the new node's index. -/
def initNextState (arena : List Node) (c : Char) (prev : Nat) :
    Except RegexError (List Node × Nat) :=
  if c = '.' then Except.ok (arena ++ [dotNode], arena.length)
  else if c = '*' ∨ c = '+' then
    match kindAt arena prev with
    | StateKind.star _ => Except.error RegexError.doubleQuantifier
    | StateKind.plus _ => Except.error RegexError.doubleQuantifier
    | StateKind.start => Except.error RegexError.quantifierAtStart
    | _ => Except.error RegexError.noneFallthrough
  else if c.toNat < 128 then Except.ok (arena ++ [asciiNode c], arena.length)
  else Except.error RegexError.unsupportedCharacter

/-- Rewrite the `next_states` attribute of a node (no effect when it is missing;
the compiler only ever mutates nodes that have the attribute). -/
def modifyNext (f : List Nat → List Nat) (n : Node) : Node :=
  { n with next_states := n.next_states.map f }

/-- `prev_state.next_states.insert(0, target)`. -/
def insertFront (arena : List Node) (i target : Nat) : List Node :=
  arena.set i (modifyNext (fun l => target :: l) (nodeAt arena i))

/-- `prev_state.next_states.append(target)`. -/
def appendEdge (arena : List Node) (i target : Nat) : List Node :=
  arena.set i (modifyNext (fun l => l ++ [target]) (nodeAt arena i))

/-- The scan loop of `RegexFSM.__init__`: for each pattern character build the next
state, wrap it in a `StarState`/`PlusState` when the lookahead character is `*`/`+`
(consuming that character, Python's `skip` flag), insert the result at the front of
`prev_state.next_states` and move `prev_state` forward.  Returns the final arena and
the final `prev_state` index. -/
def compileLoop : List Char → List Node → Nat → Except RegexError (List Node × Nat)
  | [], arena, prev => Except.ok (arena, prev)
  | [c], arena, prev =>
    match initNextState arena c prev with
    | Except.error e => Except.error e
    | Except.ok (arena1, tmp) => Except.ok (insertFront arena1 prev tmp, tmp)
  | c :: c2 :: rest2, arena, prev =>
    match initNextState arena c prev with
    | Except.error e => Except.error e
    | Except.ok (arena1, tmp) =>
      if c2 = '*' then
        compileLoop rest2
          (insertFront (arena1 ++ [starNode tmp arena1.length]) prev arena1.length)
          arena1.length
      else if c2 = '+' then
        compileLoop rest2
          (insertFront (arena1 ++ [plusNode tmp arena1.length]) prev arena1.length)
          arena1.length
      else compileLoop (c2 :: rest2) (insertFront arena1 prev tmp) tmp

/-- The compiled machine: the arena of states; the start state is index `0`. -/
structure RegexFSM where
  states : List Node
deriving DecidableEq

/-- `RegexFSM.__init__`: an empty pattern links `StartState` straight to a
`TerminationState`; otherwise run the scan loop from the start state and append a
`TerminationState` to the final `prev_state`'s edge list. -/
def compile (pattern : List Char) : Except RegexError RegexFSM :=
  match pattern with
  | [] => Except.ok ⟨[⟨StateKind.start, some [1]⟩, terminationNode]⟩
  | _ :: _ =>
    match compileLoop pattern [startNode] 0 with
    | Except.error e => Except.error e
    | Except.ok (arena, prev) =>
      Except.ok ⟨appendEdge (arena ++ [terminationNode]) prev arena.length⟩

/-- `State.check_self`.  The `depth` argument bounds the delegation chain of
`StarState`/`PlusState` to their `checking_state` (in compiled graphs the wrapped
state is always a `DotState`/`AsciiState`, so depth 1 is ever used; callers pass
`arena.length`, which always suffices).  `StartState.check_self` returns `None`,
which is falsy at its only use site, so it is modelled as `false`. -/
def checkSelf (arena : List Node) : Nat → StateKind → Char → Bool
  | _, StateKind.dot, _ => true
  | _, StateKind.ascii sym, c => c = sym
  | _, StateKind.termination, _ => false
  | _, StateKind.start, _ => false
  | 0, StateKind.star _, _ => false
  | 0, StateKind.plus _, _ => false
  | d + 1, StateKind.star chk, c => checkSelf arena d (kindAt arena chk) c
  | d + 1, StateKind.plus chk, c => checkSelf arena d (kindAt arena chk) c

/-- `isinstance(s, TerminationState)` for the node at index `i`. -/
def isTermination (arena : List Node) (i : Nat) : Bool :=
  match kindAt arena i with
  | StateKind.termination => true
  | _ => false

/-- Errors `check_string` can raise: reading `next_states` of a `TerminationState`
(`AttributeError`), or indexing an empty edge list / past the input string
(`IndexError`; unreachable in compiled graphs). -/
inductive MatchError where
  | attributeError : MatchError
  | indexError : MatchError
deriving DecidableEq

/-- The end-of-input test of `check_string` (lines 162-166): evaluating
`[curr_state] + curr_state.next_states` reads `curr_state.next_states` — an
`AttributeError` when the current node is a `TerminationState` — then asks whether
any listed state is a `TerminationState`. -/
def atEnd (arena : List Node) (cur : Nat) : Except MatchError Bool :=
  match (nodeAt arena cur).next_states with
  | none => Except.error MatchError.attributeError
  | some ns => Except.ok ((cur :: ns).any (fun j => isTermination arena j))

/-- One expansion step of `check_string` (lines 168-177): read edge 0 (raising on a
missing attribute or an empty list); if it is a `StarState`, enqueue it without
consuming; otherwise enqueue it consuming one character when `check_self` accepts;
finally, when the current node has exactly two edges, unconditionally enqueue edge 1
at `start + 1`. -/
def expandPair (arena : List Node) (s : List Char) (cur start : Nat)
    (queue : List (Nat × Nat)) : Except MatchError (List (Nat × Nat)) :=
  match (nodeAt arena cur).next_states with
  | none => Except.error MatchError.attributeError
  | some ns =>
    match ns with
    | [] => Except.error MatchError.indexError
    | nx :: _ =>
      let afterFirst : Except MatchError (List (Nat × Nat)) :=
        match kindAt arena nx with
        | StateKind.star _ => Except.ok (queue ++ [(nx, start)])
        | _ =>
          match s.get? start with
          | none => Except.error MatchError.indexError
          | some ch =>
            if checkSelf arena arena.length (kindAt arena nx) ch then
              Except.ok (queue ++ [(nx, start + 1)])
            else Except.ok queue
      match afterFirst with
      | Except.error e => Except.error e
      | Except.ok q1 =>
        if ns.length = 2 then Except.ok (q1 ++ [(ns.getD 1 0, start + 1)])
        else Except.ok q1

/-- The BFS worklist loop of `check_string`, popping `(state, position)` pairs FIFO.
`fuel` bounds the number of loop iterations (the Python loop has no such bound; a
`some` result is the loop's actual outcome, and is stable under larger fuel, see
`checkStringAux_mono`).  The inner `Except` layer carries the exceptions the Python
loop can raise. -/
def checkStringAux (arena : List Node) (s : List Char) :
    Nat → List (Nat × Nat) → Option (Except MatchError Bool)
  | 0, _ => none
  | _ + 1, [] => some (Except.ok false)
  | fuel + 1, (cur, start) :: queue =>
    if start = s.length then
      match atEnd arena cur with
      | Except.error e => some (Except.error e)
      | Except.ok true => some (Except.ok true)
      | Except.ok false => checkStringAux arena s fuel queue
    else
      match expandPair arena s cur start queue with
      | Except.error e => some (Except.error e)
      | Except.ok q2 => checkStringAux arena s fuel q2

/-- `RegexFSM.check_string`: run the BFS from `[(start, 0)]`. -/
def check_string (fuel : Nat) (fsm : RegexFSM) (s : List Char) :
    Option (Except MatchError Bool) :=
  checkStringAux fsm.states s fuel [(0, 0)]

/-- The node at `i` is a quantifier node (`StarState` or `PlusState`). -/
def isQuantKind : StateKind → Bool
  | StateKind.star _ => true
  | StateKind.plus _ => true
  | _ => false

/-- Per-node invariant of the compiler scan loop, relative to the current
`prev_state` index `prev`: the node's `next_states` attribute is set; it holds at
most two edges, and at most one while the node is still `prev_state` (so that the
final `append` of the termination state keeps the bound); and a quantifier node
carries its self edge — alone while it is `prev_state` (as `StarState.__init__` /
`PlusState.__init__` leave it), behind one front-inserted successor afterwards. -/
def NodeCond (arena : List Node) (prev i : Nat) : Prop :=
  ∃ l, (nodeAt arena i).next_states = some l ∧ l.length ≤ 2 ∧
    (i = prev → l.length ≤ 1) ∧
    (isQuantKind (kindAt arena i) = true →
      (i = prev → l = [i]) ∧ (i ≠ prev → ∃ j, l = [j, i]))

/-- Loop invariant of `RegexFSM.__init__`'s scan: `prev_state` is a valid index and
every node satisfies `NodeCond`. -/
def Inv (arena : List Node) (prev : Nat) : Prop :=
  prev < arena.length ∧ ∀ i, i < arena.length → NodeCond arena prev i

/-- The compiled machine of a pattern that compiles, and the empty machine
otherwise (only ever used on patterns that compile). -/
def fsmOf (p : List Char) : RegexFSM := (compile p).toOption.getD ⟨[]⟩

/-- The demo pattern of `regex.py`'s `__main__` block. -/
def patDemo : List Char := ['a', '*', '4', '.', '+', 'h', 'i']

def fsmDemo : RegexFSM := fsmOf patDemo

def patAStarB : List Char := ['a', '*', 'b']

def fsmAStarB : RegexFSM := fsmOf patAStarB

def patAPlusB : List Char := ['a', '+', 'b']

def fsmAPlusB : RegexFSM := fsmOf patAPlusB

def patAPlus : List Char := ['a', '+']

def fsmAPlus : RegexFSM := fsmOf patAPlus

def fsmEmpty : RegexFSM := fsmOf []

/-- A `some` result of the worklist loop is stable under one more unit of fuel:
the fuel only bounds the iteration count, it does not influence any outcome. -/
theorem checkStringAux_mono (arena : List Node) (s : List Char) :
    ∀ (fuel : Nat) (q : List (Nat × Nat)) (r : Except MatchError Bool),
      checkStringAux arena s fuel q = some r →
      checkStringAux arena s (fuel + 1) q = some r := by
  intro fuel
  induction fuel with
  | zero => intro q r h; simp [checkStringAux] at h
  | succ n ih =>
    intro q r h
    match q with
    | [] => simpa [checkStringAux] using h
    | (cur, start) :: rest =>
      rw [checkStringAux] at h ⊢
      by_cases hs : start = s.length
      · rw [if_pos hs] at h ⊢
        cases hae : atEnd arena cur with
        | error e => rw [hae] at h; exact h
        | ok b =>
          cases b with
          | true => rw [hae] at h; exact h
          | false => rw [hae] at h; exact ih _ _ h
      · rw [if_neg hs] at h ⊢
        cases hep : expandPair arena s cur start rest with
        | error e => rw [hep] at h; exact h
        | ok q2 => rw [hep] at h; exact ih _ _ h

/-- A `some` result of `check_string` is stable under any larger fuel, so a result
established at one fuel value is the result of the (unbounded) Python loop. -/
theorem check_string_mono (fsm : RegexFSM) (s : List Char) {f g : Nat}
    (hfg : f ≤ g) {r : Except MatchError Bool}
    (h : check_string f fsm s = some r) : check_string g fsm s = some r := by
  induction g, hfg using Nat.le_induction with
  | base => exact h
  | succ n hn ih => exact checkStringAux_mono fsm.states s n _ r ih

/-- C4: for the compiled demo pattern `"a*4.+hi"`, `check_string` returns `True` on
`"aaaaaa4uhi"`, `True` on `"4uhi"` and `False` on `"meow"`. -/
theorem demo_pattern_matches (fuel : Nat) (hfuel : 50 ≤ fuel) :
    compile patDemo = Except.ok fsmDemo ∧
    check_string fuel fsmDemo ['a', 'a', 'a', 'a', 'a', 'a', '4', 'u', 'h', 'i']
      = some (Except.ok true) ∧
    check_string fuel fsmDemo ['4', 'u', 'h', 'i'] = some (Except.ok true) ∧
    check_string fuel fsmDemo ['m', 'e', 'o', 'w'] = some (Except.ok false) :=
  ⟨by decide, check_string_mono _ _ hfuel (by decide),
    check_string_mono _ _ hfuel (by decide), check_string_mono _ _ hfuel (by decide)⟩

/-- Witness for `demo_pattern_matches` at fuel 50. -/
theorem demo_pattern_matches_witness :
    compile patDemo = Except.ok fsmDemo ∧
    check_string 50 fsmDemo ['a', 'a', 'a', 'a', 'a', 'a', '4', 'u', 'h', 'i']
      = some (Except.ok true) ∧
    check_string 50 fsmDemo ['4', 'u', 'h', 'i'] = some (Except.ok true) ∧
    check_string 50 fsmDemo ['m', 'e', 'o', 'w'] = some (Except.ok false) :=
  demo_pattern_matches 50 (Nat.le_refl 50)

/-- C5: for the compiled pattern `"a*b"`, `check_string` returns `True` on `"b"`
(zero repetitions of the starred atom), `True` on `"aaab"` and `False` on `"aaa"`. -/
theorem star_zero_match (fuel : Nat) (hfuel : 50 ≤ fuel) :
    compile patAStarB = Except.ok fsmAStarB ∧
    check_string fuel fsmAStarB ['b'] = some (Except.ok true) ∧
    check_string fuel fsmAStarB ['a', 'a', 'a', 'b'] = some (Except.ok true) ∧
    check_string fuel fsmAStarB ['a', 'a', 'a'] = some (Except.ok false) :=
  ⟨by decide, check_string_mono _ _ hfuel (by decide),
    check_string_mono _ _ hfuel (by decide), check_string_mono _ _ hfuel (by decide)⟩

/-- Witness for `star_zero_match` at fuel 50. -/
theorem star_zero_match_witness :
    compile patAStarB = Except.ok fsmAStarB ∧
    check_string 50 fsmAStarB ['b'] = some (Except.ok true) ∧
    check_string 50 fsmAStarB ['a', 'a', 'a', 'b'] = some (Except.ok true) ∧
    check_string 50 fsmAStarB ['a', 'a', 'a'] = some (Except.ok false) :=
  star_zero_match 50 (Nat.le_refl 50)

/-- C6: for the compiled pattern `"a+b"`, `check_string` returns `False` on `"b"`,
`True` on `"ab"` and `True` on `"aab"`. -/
theorem plus_requires_one (fuel : Nat) (hfuel : 50 ≤ fuel) :
    compile patAPlusB = Except.ok fsmAPlusB ∧
    check_string fuel fsmAPlusB ['b'] = some (Except.ok false) ∧
    check_string fuel fsmAPlusB ['a', 'b'] = some (Except.ok true) ∧
    check_string fuel fsmAPlusB ['a', 'a', 'b'] = some (Except.ok true) :=
  ⟨by decide, check_string_mono _ _ hfuel (by decide),
    check_string_mono _ _ hfuel (by decide), check_string_mono _ _ hfuel (by decide)⟩

/-- Witness for `plus_requires_one` at fuel 50. -/
theorem plus_requires_one_witness :
    compile patAPlusB = Except.ok fsmAPlusB ∧
    check_string 50 fsmAPlusB ['b'] = some (Except.ok false) ∧
    check_string 50 fsmAPlusB ['a', 'b'] = some (Except.ok true) ∧
    check_string 50 fsmAPlusB ['a', 'a', 'b'] = some (Except.ok true) :=
  plus_requires_one 50 (Nat.le_refl 50)

/-- C7: compiling `"*abc"`, `"+abc"`, `"a**"` and `"a*+"` each raises a
quantifier-placement `ValueError` instead of returning a graph. -/
theorem quantifier_placement_errors :
    compile ['*', 'a', 'b', 'c'] = Except.error RegexError.quantifierAtStart ∧
    compile ['+', 'a', 'b', 'c'] = Except.error RegexError.quantifierAtStart ∧
    compile ['a', '*', '*'] = Except.error RegexError.doubleQuantifier ∧
    compile ['a', '*', '+'] = Except.error RegexError.doubleQuantifier ∧
    isQuantifierPlacementError RegexError.quantifierAtStart = true ∧
    isQuantifierPlacementError RegexError.doubleQuantifier = true := by
  decide

/-- C8: compiling the empty pattern yields a graph whose start node's sole successor
is the termination node; `check_string` accepts `""` and rejects `"x"`. -/
theorem empty_pattern_behavior (fuel : Nat) (hfuel : 50 ≤ fuel) :
    compile [] = Except.ok fsmEmpty ∧
    nextListD fsmEmpty.states 0 = [1] ∧
    kindAt fsmEmpty.states 1 = StateKind.termination ∧
    check_string fuel fsmEmpty [] = some (Except.ok true) ∧
    check_string fuel fsmEmpty ['x'] = some (Except.ok false) :=
  ⟨by decide, by decide, by decide, check_string_mono _ _ hfuel (by decide),
    check_string_mono _ _ hfuel (by decide)⟩

/-- Witness for `empty_pattern_behavior` at fuel 50. -/
theorem empty_pattern_behavior_witness :
    compile [] = Except.ok fsmEmpty ∧
    nextListD fsmEmpty.states 0 = [1] ∧
    kindAt fsmEmpty.states 1 = StateKind.termination ∧
    check_string 50 fsmEmpty [] = some (Except.ok true) ∧
    check_string 50 fsmEmpty ['x'] = some (Except.ok false) :=
  empty_pattern_behavior 50 (Nat.le_refl 50)

/-- C10: for the compiled pattern `"a*b"`, `check_string` returns `True` on `"xb"`:
the second-edge branch of the matcher enqueues `(edge1, position + 1)` without
checking the consumed character against the starred atom. -/
theorem star_skip_unvalidated (fuel : Nat) (hfuel : 50 ≤ fuel) :
    compile patAStarB = Except.ok fsmAStarB ∧
    check_string fuel fsmAStarB ['x', 'b'] = some (Except.ok true) :=
  ⟨by decide, check_string_mono _ _ hfuel (by decide)⟩

/-- Witness for `star_skip_unvalidated` at fuel 50. -/
theorem star_skip_unvalidated_witness :
    compile patAStarB = Except.ok fsmAStarB ∧
    check_string 50 fsmAStarB ['x', 'b'] = some (Except.ok true) :=
  star_skip_unvalidated 50 (Nat.le_refl 50)

/-- C1: the compiler accepts the pattern `"a+"`, yet `check_string` on the input
`"ab"` raises `AttributeError` — the BFS enqueues the termination node (via the
second-edge branch of the trailing `PlusState`) and then reads its missing
`next_states` attribute — contradicting the documented `-> bool` contract of
`check_string`, under which matching never raises. -/
theorem check_string_raises_attribute_error (fuel : Nat) (hfuel : 50 ≤ fuel) :
    compile patAPlus = Except.ok fsmAPlus ∧
    check_string fuel fsmAPlus ['a', 'b'] = some (Except.error MatchError.attributeError) :=
  ⟨by decide, check_string_mono _ _ hfuel (by decide)⟩

/-- Witness for `check_string_raises_attribute_error` at fuel 50. -/
theorem check_string_raises_attribute_error_witness :
    compile patAPlus = Except.ok fsmAPlus ∧
    check_string 50 fsmAPlus ['a', 'b'] = some (Except.error MatchError.attributeError) :=
  check_string_raises_attribute_error 50 (Nat.le_refl 50)

/-- Counterexample to C2 as stated: the pattern `"a+b"` compiles, and its `PlusState`
node (index 2, wrapping the `AsciiState` at index 1) has edge list `[3, 2]`, which
contains the node itself — `PlusState.__init__` appends `self` to its own
`next_states`, so Plus construction does self-loop. -/
theorem plus_self_loop_counterexample :
    compile patAPlusB = Except.ok fsmAPlusB ∧
    kindAt fsmAPlusB.states 2 = StateKind.plus 1 ∧
    nextListD fsmAPlusB.states 2 = [3, 2] ∧
    2 ∈ nextListD fsmAPlusB.states 2 := by
  decide

/-- Counterexample to C3 as stated: the pattern `"a*b"` compiles, and its `StarState`
node (index 2) has edge list `[3, 2]` — the self-loop sits at position 1, not at
position 0, because the following atom was front-inserted by the compiler. -/
theorem star_edge_zero_counterexample :
    compile patAStarB = Except.ok fsmAStarB ∧
    kindAt fsmAStarB.states 2 = StateKind.star 1 ∧
    nextListD fsmAStarB.states 2 = [3, 2] ∧
    (nextListD fsmAStarB.states 2).get? 0 ≠ some 2 := by
  decide

end DiscreteRegex

namespace DiscreteRegex

theorem length_insertFront (arena : List Node) (i t : Nat) :
    (insertFront arena i t).length = arena.length := List.length_set arena i _

theorem nodeAt_set_self {arena : List Node} {i : Nat} (n : Node) (h : i < arena.length) :
    nodeAt (arena.set i n) i = n := by
  unfold nodeAt; rw [List.getElem?_set_self (by simpa using h)]; rfl

theorem nodeAt_set_ne {arena : List Node} {i j : Nat} (n : Node) (h : i ≠ j) :
    nodeAt (arena.set i n) j = nodeAt arena j := by
  unfold nodeAt; rw [List.getElem?_set_ne h]

theorem nodeAt_append_lt {arena ext : List Node} {i : Nat} (h : i < arena.length) :
    nodeAt (arena ++ ext) i = nodeAt arena i := by
  unfold nodeAt; rw [List.getElem?_append_left h]

theorem nodeAt_append_self (arena : List Node) (n : Node) :
    nodeAt (arena ++ [n]) arena.length = n := by
  unfold nodeAt; rw [List.getElem?_concat_length]; rfl

theorem nodeAt_ge {arena : List Node} {i : Nat} (h : arena.length ≤ i) :
    nodeAt arena i = default := by
  unfold nodeAt; rw [List.getElem?_eq_none_iff.mpr h]; rfl

theorem nodeAt_insertFront_self {arena : List Node} {i t : Nat} (h : i < arena.length) :
    nodeAt (insertFront arena i t) i = modifyNext (fun l => t :: l) (nodeAt arena i) :=
  nodeAt_set_self _ h

theorem nodeAt_insertFront_ne {arena : List Node} {i j t : Nat} (h : i ≠ j) :
    nodeAt (insertFront arena i t) j = nodeAt arena j :=
  nodeAt_set_ne _ h

theorem NodeCond.of_nodeAt_eq {arena arena' : List Node} {prev i : Nat}
    (h : nodeAt arena' i = nodeAt arena i) (hc : NodeCond arena prev i) :
    NodeCond arena' prev i := by
  unfold NodeCond kindAt at hc ⊢; rw [h]; exact hc

theorem initNextState_ok {arena : List Node} {c : Char} {prev : Nat}
    {arena1 : List Node} {tmp : Nat}
    (h : initNextState arena c prev = Except.ok (arena1, tmp)) :
    ∃ n : Node, arena1 = arena ++ [n] ∧ tmp = arena.length ∧
      n.next_states = some [] ∧ isQuantKind n.kind = false := by
  unfold initNextState at h
  split_ifs at h with h1 h2 h3
  · refine ⟨dotNode, ?_, ?_, rfl, rfl⟩ <;> · cases h; rfl
  · cases hk : kindAt arena prev <;> rw [hk] at h <;> cases h
  · refine ⟨asciiNode c, ?_, ?_, rfl, rfl⟩ <;> · cases h; rfl

theorem inv_link {arena : List Node} {prev node : Nat}
    (hprev : prev < arena.length) (hnode : node < arena.length) (hne : prev ≠ node)
    (hQS : ∀ i, i < arena.length → i ≠ node → NodeCond arena prev i)
    (hnew : ∃ l, (nodeAt arena node).next_states = some l ∧ l.length ≤ 1 ∧
      (isQuantKind (kindAt arena node) = true → l = [node])) :
    Inv (insertFront arena prev node) node := by
  constructor
  · rw [length_insertFront]; exact hnode
  · intro i hi
    rw [length_insertFront] at hi
    by_cases hip : i = prev
    · subst hip
      obtain ⟨l, hl, hlen2, hlen1, hq⟩ := hQS i hi (fun hin => hne hin)
      refine ⟨node :: l, ?_, ?_, ?_, ?_⟩
      · rw [nodeAt_insertFront_self hi]
        simp [modifyNext, hl]
      · have := hlen1 rfl
        simp only [List.length_cons]
        omega
      · intro hip2; exact absurd hip2 hne
      · intro hqk
        have hkind : kindAt (insertFront arena i node) i = kindAt arena i := by
          unfold kindAt; rw [nodeAt_insertFront_self hi]; rfl
        rw [hkind] at hqk
        refine ⟨fun hip2 => absurd hip2 hne, fun _ => ⟨node, ?_⟩⟩
        rw [(hq hqk).1 rfl]
    · have hnd : nodeAt (insertFront arena prev node) i = nodeAt arena i :=
        nodeAt_insertFront_ne (fun hpi => hip hpi.symm)
      by_cases hin : i = node
      · subst hin
        obtain ⟨l, hl, hlen1, hq⟩ := hnew
        refine ⟨l, by rw [hnd]; exact hl, by omega, fun _ => hlen1, ?_⟩
        intro hqk
        have hkind : kindAt (insertFront arena prev i) i = kindAt arena i := by
          unfold kindAt; rw [hnd]
        rw [hkind] at hqk
        exact ⟨fun _ => hq hqk, fun hii => absurd rfl hii⟩
      · obtain ⟨l, hl, hlen2, hlen1, hq⟩ := hQS i hi hin
        refine ⟨l, by rw [hnd]; exact hl, hlen2, fun hii => absurd hii hin, ?_⟩
        intro hqk
        have hkind : kindAt (insertFront arena prev node) i = kindAt arena i := by
          unfold kindAt; rw [hnd]
        rw [hkind] at hqk
        refine ⟨fun hii => absurd hii hin, fun _ => (hq hqk).2 hip⟩

end DiscreteRegex

namespace DiscreteRegex

theorem inv_init : Inv [startNode] 0 := by
  refine ⟨by simp, ?_⟩
  intro i hi
  have hi0 : i = 0 := Nat.lt_one_iff.mp (by simpa using hi)
  subst hi0
  refine ⟨[], rfl, by simp, by simp, ?_⟩
  intro h
  simp [kindAt, nodeAt, isQuantKind, startNode] at h

theorem inv_step_plain {arena : List Node} {prev : Nat} (hinv : Inv arena prev)
    {atom : Node} (hatom : atom.next_states = some [])
    (hqa : isQuantKind atom.kind = false) :
    Inv (insertFront (arena ++ [atom]) prev arena.length) arena.length := by
  obtain ⟨hprev, hQS⟩ := hinv
  apply inv_link
  · simp; omega
  · simp
  · exact Nat.ne_of_lt hprev
  · intro i hi hine
    have hi' : i < arena.length := by simp at hi; omega
    exact NodeCond.of_nodeAt_eq (nodeAt_append_lt hi') (hQS i hi')
  · refine ⟨[], ?_, by simp, ?_⟩
    · rw [nodeAt_append_self]; exact hatom
    · intro hquant
      unfold kindAt at hquant
      rw [nodeAt_append_self, hqa] at hquant
      cases hquant

theorem inv_step_wrap {arena : List Node} {prev : Nat} (hinv : Inv arena prev)
    {atom w : Node} (hatom : atom.next_states = some [])
    (hqa : isQuantKind atom.kind = false)
    (hw : w.next_states = some [arena.length + 1]) :
    Inv (insertFront ((arena ++ [atom]) ++ [w]) prev (arena.length + 1))
      (arena.length + 1) := by
  obtain ⟨hprev, hQS⟩ := hinv
  have hlen1 : (arena ++ [atom]).length = arena.length + 1 := by simp
  apply inv_link
  · simp; omega
  · simp
  · omega
  · intro i hi hine
    have hi2 : i < arena.length + 2 := by simpa using hi
    by_cases hia : i < arena.length
    · have h1 : nodeAt ((arena ++ [atom]) ++ [w]) i = nodeAt arena i := by
        rw [nodeAt_append_lt (by simp; omega), nodeAt_append_lt hia]
      exact NodeCond.of_nodeAt_eq h1 (hQS i hia)
    · have hieq : i = arena.length := by omega
      subst hieq
      have h1 : nodeAt ((arena ++ [atom]) ++ [w]) arena.length = atom := by
        rw [nodeAt_append_lt (by simp), nodeAt_append_self]
      refine ⟨[], ?_, by simp, ?_, ?_⟩
      · rw [h1]; exact hatom
      · intro hip; omega
      · intro hquant
        unfold kindAt at hquant
        rw [h1, hqa] at hquant
        cases hquant
  · have h1 : nodeAt ((arena ++ [atom]) ++ [w]) (arena.length + 1) = w := by
      rw [← hlen1, nodeAt_append_self]
    refine ⟨[arena.length + 1], ?_, by simp, fun _ => rfl⟩
    rw [h1]; exact hw

theorem compileLoop_inv :
    ∀ (n : Nat) (cs : List Char) (arena : List Node) (prev : Nat)
      (arena' : List Node) (prev' : Nat),
      cs.length ≤ n →
      compileLoop cs arena prev = Except.ok (arena', prev') →
      Inv arena prev → Inv arena' prev' := by
  intro n
  induction n with
  | zero =>
    intro cs arena prev arena' prev' hlen hc hinv
    match cs with
    | [] =>
      rw [compileLoop] at hc
      injection hc with h
      injection h with h1 h2
      subst h1; subst h2
      exact hinv
    | c :: rest => simp at hlen
  | succ n ih =>
    intro cs arena prev arena' prev' hlen hc hinv
    match cs with
    | [] =>
      rw [compileLoop] at hc
      injection hc with h
      injection h with h1 h2
      subst h1; subst h2
      exact hinv
    | [c] =>
      rw [compileLoop] at hc
      split at hc
      · cases hc
      · next arena1 tmp heq =>
        injection hc with h
        injection h with h1 h2
        subst h1; subst h2
        obtain ⟨atom, rfl, rfl, hatom, hqa⟩ := initNextState_ok heq
        exact inv_step_plain hinv hatom hqa
    | c :: c2 :: rest2 =>
      rw [compileLoop] at hc
      split at hc
      · cases hc
      · next arena1 tmp heq =>
        obtain ⟨atom, rfl, rfl, hatom, hqa⟩ := initNextState_ok heq
        have hlen1 : (arena ++ [atom]).length = arena.length + 1 := by simp
        by_cases hstar : c2 = '*'
        · rw [if_pos hstar] at hc
          refine ih rest2 _ _ _ _ (by simp at hlen; omega) hc ?_
          rw [hlen1]
          exact inv_step_wrap hinv hatom hqa rfl
        · rw [if_neg hstar] at hc
          by_cases hplus : c2 = '+'
          · rw [if_pos hplus] at hc
            refine ih rest2 _ _ _ _ (by simp at hlen; omega) hc ?_
            rw [hlen1]
            exact inv_step_wrap hinv hatom hqa rfl
          · rw [if_neg hplus] at hc
            refine ih (c2 :: rest2) _ _ _ _ (by simp at hlen ⊢; omega) hc ?_
            exact inv_step_plain hinv hatom hqa

end DiscreteRegex

namespace DiscreteRegex

theorem nodeAt_final_prev {arena : List Node} {prev : Nat} (hprev : prev < arena.length) :
    nodeAt (appendEdge (arena ++ [terminationNode]) prev arena.length) prev
      = modifyNext (fun l => l ++ [arena.length]) (nodeAt arena prev) := by
  unfold appendEdge
  rw [nodeAt_set_self _ (by simp; omega), nodeAt_append_lt hprev]

theorem nodeAt_final_ne {arena : List Node} {prev i : Nat} (hne : i ≠ prev) :
    nodeAt (appendEdge (arena ++ [terminationNode]) prev arena.length) i
      = nodeAt (arena ++ [terminationNode]) i := by
  unfold appendEdge
  exact nodeAt_set_ne _ (fun h => hne h.symm)

theorem final_edge_bound {arena : List Node} {prev : Nat} (hinv : Inv arena prev) :
    ∀ i, (nextListD (appendEdge (arena ++ [terminationNode]) prev arena.length) i).length ≤ 2 := by
  obtain ⟨hprev, hQS⟩ := hinv
  intro i
  by_cases hip : i = prev
  · subst hip
    obtain ⟨l, hl, hlen2, hlen1, _⟩ := hQS i hprev
    unfold nextListD
    rw [nodeAt_final_prev hprev]
    simp [modifyNext, hl]
    have := hlen1 rfl
    omega
  · unfold nextListD
    rw [nodeAt_final_ne hip]
    by_cases hia : i < arena.length
    · rw [nodeAt_append_lt hia]
      obtain ⟨l, hl, hlen2, _, _⟩ := hQS i hia
      simp [hl]
      exact hlen2
    · by_cases hit : i = arena.length
      · subst hit
        rw [nodeAt_append_self]
        simp [terminationNode]
      · rw [nodeAt_ge (by simp; omega)]
        simp [default]

theorem final_quant_shape {arena : List Node} {prev : Nat} (hinv : Inv arena prev) :
    ∀ i, isQuantKind
        (kindAt (appendEdge (arena ++ [terminationNode]) prev arena.length) i) = true →
      (∃ j, nextListD (appendEdge (arena ++ [terminationNode]) prev arena.length) i
          = [j, i]) ∨
      (∃ t, nextListD (appendEdge (arena ++ [terminationNode]) prev arena.length) i
          = [i, t] ∧
        kindAt (appendEdge (arena ++ [terminationNode]) prev arena.length) t
          = StateKind.termination) := by
  obtain ⟨hprev, hQS⟩ := hinv
  intro i hq
  by_cases hip : i = prev
  · subst hip
    obtain ⟨l, hl, hlen2, hlen1, hquant⟩ := hQS i hprev
    have hkind : kindAt (appendEdge (arena ++ [terminationNode]) i arena.length) i
        = kindAt arena i := by
      unfold kindAt
      rw [nodeAt_final_prev hprev]
      rfl
    rw [hkind] at hq
    have hself : l = [i] := (hquant hq).1 rfl
    right
    refine ⟨arena.length, ?_, ?_⟩
    · unfold nextListD
      rw [nodeAt_final_prev hprev]
      simp [modifyNext, hl, hself]
    · have hne : arena.length ≠ i := by omega
      unfold kindAt
      rw [nodeAt_final_ne hne, nodeAt_append_self]
      rfl
  · have hkind : kindAt (appendEdge (arena ++ [terminationNode]) prev arena.length) i
        = kindAt (arena ++ [terminationNode]) i := by
      unfold kindAt; rw [nodeAt_final_ne hip]
    rw [hkind] at hq
    by_cases hia : i < arena.length
    · have hkind2 : kindAt (arena ++ [terminationNode]) i = kindAt arena i := by
        unfold kindAt; rw [nodeAt_append_lt hia]
      rw [hkind2] at hq
      obtain ⟨l, hl, hlen2, _, hquant⟩ := hQS i hia
      obtain ⟨j, hj⟩ := (hquant hq).2 hip
      left
      refine ⟨j, ?_⟩
      unfold nextListD
      rw [nodeAt_final_ne hip, nodeAt_append_lt hia]
      simp [hl, hj]
    · exfalso
      by_cases hit : i = arena.length
      · subst hit
        unfold kindAt at hq
        rw [nodeAt_append_self] at hq
        simp [terminationNode, isQuantKind] at hq
      · unfold kindAt at hq
        rw [nodeAt_ge (by simp; omega)] at hq
        simp [default, isQuantKind] at hq

theorem compile_empty_kind (i : Nat) {fsm : RegexFSM}
    (h : compile [] = Except.ok fsm) :
    isQuantKind (kindAt fsm.states i) = false := by
  rw [compile] at h
  injection h with h1
  subst h1
  match i with
  | 0 => rfl
  | 1 => rfl
  | n + 2 =>
    unfold kindAt
    rw [nodeAt_ge (by simp)]
    rfl

theorem compile_ok_shape {p : List Char} {fsm : RegexFSM}
    (h : compile p = Except.ok fsm) :
    (∀ i, (nextListD fsm.states i).length ≤ 2) ∧
    (∀ i, isQuantKind (kindAt fsm.states i) = true →
      (∃ j, nextListD fsm.states i = [j, i]) ∨
      (∃ t, nextListD fsm.states i = [i, t] ∧
        kindAt fsm.states t = StateKind.termination)) := by
  match p with
  | [] =>
    constructor
    · intro i
      rw [compile] at h
      injection h with h1
      subst h1
      match i with
      | 0 => decide
      | 1 => decide
      | n + 2 =>
        unfold nextListD
        rw [nodeAt_ge (by simp)]
        decide
    · intro i hq
      rw [compile_empty_kind i h] at hq
      cases hq
  | c :: rest =>
    rw [compile] at h
    split at h
    · cases h
    · next arena prev heq =>
      injection h with h1
      subst h1
      have hinv : Inv arena prev :=
        compileLoop_inv (c :: rest).length (c :: rest) [startNode] 0 arena prev
          (Nat.le_refl _) heq inv_init
      exact ⟨final_edge_bound hinv, final_quant_shape hinv⟩

end DiscreteRegex


namespace DiscreteRegex

/-- C9: for every pattern accepted by the compiler, every node of the compiled
graph holds at most two outgoing edges. -/
theorem edge_count_bound (p : List Char) (fsm : RegexFSM)
    (h : compile p = Except.ok fsm) (i : Nat) (_hi : i < fsm.states.length) :
    (nextListD fsm.states i).length <= 2 :=
  (compile_ok_shape h).1 i

/-- Witness for `edge_count_bound` on the pattern `"a*b"` at the start node. -/
theorem edge_count_bound_witness : (nextListD fsmAStarB.states 0).length <= 2 :=
  edge_count_bound patAStarB fsmAStarB (by decide) 0 (by decide)

/-- C2 (amended): for every pattern accepted by the compiler, every `PlusState`
node of the compiled graph has an outgoing edge that points to the node itself —
`PlusState.__init__` appends `self` to its own `next_states`, exactly like
`StarState`; apart from this self edge the wrapped node is linked like a normal
atom. -/
theorem plus_self_edge (p : List Char) (fsm : RegexFSM)
    (h : compile p = Except.ok fsm) (i chk : Nat)
    (hk : kindAt fsm.states i = StateKind.plus chk) :
    i ∈ nextListD fsm.states i := by
  have hq : isQuantKind (kindAt fsm.states i) = true := by rw [hk]; rfl
  rcases (compile_ok_shape h).2 i hq with ⟨j, hj⟩ | ⟨t, ht, _⟩
  · rw [hj]; simp
  · rw [ht]; simp

/-- Witness for `plus_self_edge` on the pattern `"a+b"` at its Plus node. -/
theorem plus_self_edge_witness : 2 ∈ nextListD fsmAPlusB.states 2 :=
  plus_self_edge patAPlusB fsmAPlusB (by decide) 2 1 (by decide)

/-- C3 (amended): for every pattern accepted by the compiler, every `StarState`
node's edge list contains the node itself, but not necessarily at position 0: the
edge list is `[successor, self]` when another construct follows the star (the
compiler front-inserts the successor), and `[self, termination]` when the star is
the pattern's last construct — so the self-loop is edge 0 only in the latter
case. -/
theorem star_self_loop_shape (p : List Char) (fsm : RegexFSM)
    (h : compile p = Except.ok fsm) (i chk : Nat)
    (hk : kindAt fsm.states i = StateKind.star chk) :
    i ∈ nextListD fsm.states i ∧
    ((∃ j, nextListD fsm.states i = [j, i]) ∨
      (∃ t, nextListD fsm.states i = [i, t] ∧
        kindAt fsm.states t = StateKind.termination)) := by
  have hq : isQuantKind (kindAt fsm.states i) = true := by rw [hk]; rfl
  refine ⟨?_, (compile_ok_shape h).2 i hq⟩
  rcases (compile_ok_shape h).2 i hq with ⟨j, hj⟩ | ⟨t, ht, _⟩
  · rw [hj]; simp
  · rw [ht]; simp

/-- Witness for `star_self_loop_shape` on the pattern `"a*b"` at its Star node. -/
theorem star_self_loop_shape_witness :
    2 ∈ nextListD fsmAStarB.states 2 ∧
    ((∃ j, nextListD fsmAStarB.states 2 = [j, 2]) ∨
      (∃ t, nextListD fsmAStarB.states 2 = [2, t] ∧
        kindAt fsmAStarB.states t = StateKind.termination)) :=
  star_self_loop_shape patAStarB fsmAStarB (by decide) 2 1 (by decide)

end DiscreteRegex
